import Mathlib

/-!
Verification of the structured-reply extractor of `It-Ticket-Gen.py`
(`parse_json_from_text`, together with the constants it uses).

The embedding models Python strings as `String`/`List Char`:
  * `pyStrip`       models `str.strip()` (ASCII whitespace);
  * `replaceAll`    models `str.replace(old, new)` (left-to-right, global);
  * `findSpan`      models `re.search(r'\{.*\}', s, re.DOTALL)` (first `{`
                    to last `}`);
  * `loads`         models `json.loads` on the matched span, returning
                    `none` where Python raises (the exception is caught by
                    the function's `try`/`except`, which returns `None`);
  * `searchField`   models `re.search(r'"<key>":\s*"([^"]+)"', s)`;
  * `parse_json_from_text` is the function itself; the wall-clock reading
    `datetime.now().strftime(...)` is passed in as the explicit `now`
    argument.
-/

namespace TicketGen

/-- JSON values as produced by `json.loads`.  Object members keep Python's
dict insertion order; numeric values keep their source lexeme (no claim
inspects a numeric value). -/
inductive Json where
  | null : Json
  | bool (b : Bool) : Json
  | num (lexeme : String) : Json
  | str (s : String) : Json
  | arr (elems : List Json) : Json
  | obj (members : List (String × Json)) : Json

/-- Whitespace stripped by Python's `str.strip()` and matched by `\s`
in its regular expressions (ASCII range). -/
def isWs (c : Char) : Bool :=
  c == ' ' || c == '\t' || c == '\n' || c == '\r' || c == '\x0b' || c == '\x0c'

/-- Whitespace skipped between JSON tokens by `json.loads`. -/
def isJsonWs (c : Char) : Bool :=
  c == ' ' || c == '\t' || c == '\n' || c == '\r'

/-- `str.strip()`: drop leading and trailing whitespace. -/
def pyStrip (l : List Char) : List Char :=
  ((l.dropWhile isWs).reverse.dropWhile isWs).reverse

/-- Fuelled worker for `str.replace`: scan left to right, replacing each
non-overlapping occurrence of `pat`.  The fuel only ensures structural
recursion; `replaceAll` supplies enough of it. -/
def replaceAllF (pat repl : List Char) : Nat → List Char → List Char
  | 0, l => l
  | _ + 1, [] => []
  | fuel + 1, c :: cs =>
    if pat.isPrefixOf (c :: cs) then
      repl ++ replaceAllF pat repl fuel ((c :: cs).drop pat.length)
    else
      c :: replaceAllF pat repl fuel cs

/-- `s.replace(pat, repl)` for a non-empty pattern. -/
def replaceAll (pat repl l : List Char) : List Char :=
  replaceAllF pat repl l.length l

/-- The pattern `'```json'` of the first `replace` call. -/
def fenceJsonPat : List Char := ['`', '`', '`', 'j', 's', 'o', 'n']

/-- The pattern `'```'` of the second `replace` call. -/
def fencePat : List Char := ['`', '`', '`']

/-- The cleaning pipeline of `parse_json_from_text`:
`text.strip().replace('```json', '').replace('```', '').strip()`. -/
def cleanText (l : List Char) : List Char :=
  pyStrip (replaceAll fencePat [] (replaceAll fenceJsonPat [] (pyStrip l)))

/-- `re.search(r'\{.*\}', s, re.DOTALL)`: the greedy match runs from the
first `{` to the last `}` after it; `none` when there is no such pair. -/
def findSpan (l : List Char) : Option (List Char) :=
  let t := l.dropWhile (fun c => c ≠ '{')
  match t with
  | [] => none
  | _ :: _ =>
    let u := (t.reverse.dropWhile (fun c => c ≠ '}')).reverse
    match u with
    | [] => none
    | _ :: _ => some u

/-- Decoded characters of the two-character escapes accepted inside JSON
strings. -/
def escChar? (c : Char) : Option Char :=
  if c = '"' then some '"'
  else if c = '\\' then some '\\'
  else if c = '/' then some '/'
  else if c = 'b' then some '\x08'
  else if c = 'f' then some '\x0c'
  else if c = 'n' then some '\n'
  else if c = 'r' then some '\r'
  else if c = 't' then some '\t'
  else none

/-- Value of a hexadecimal digit, for `\uXXXX` escapes. -/
def hexVal? (c : Char) : Option Nat :=
  if '0' ≤ c ∧ c ≤ '9' then some (c.toNat - '0'.toNat)
  else if 'a' ≤ c ∧ c ≤ 'f' then some (c.toNat - 'a'.toNat + 10)
  else if 'A' ≤ c ∧ c ≤ 'F' then some (c.toNat - 'A'.toNat + 10)
  else none

/-- Body of a JSON string, after the opening quote: returns the decoded
characters and the text after the closing quote.  Strict mode: raw control
characters are rejected.  A `\uXXXX` escape becomes the character with that
code (lone surrogates, which Lean's `Char` cannot carry, degrade to the
`Char.ofNat` default; no claim exercises them). -/
def parseStringBody : List Char → Option (List Char × List Char)
  | [] => none
  | c :: rest =>
    if c = '"' then some ([], rest)
    else if c = '\\' then
      match rest with
      | [] => none
      | e :: rest2 =>
        if e = 'u' then
          match rest2 with
          | h1 :: h2 :: h3 :: h4 :: rest3 =>
            match hexVal? h1, hexVal? h2, hexVal? h3, hexVal? h4 with
            | some a, some b, some c3, some d =>
              (parseStringBody rest3).map
                (fun p => (Char.ofNat (((a * 16 + b) * 16 + c3) * 16 + d) :: p.1, p.2))
            | _, _, _, _ => none
          | _ => none
        else
          match escChar? e with
          | some ec => (parseStringBody rest2).map (fun p => (ec :: p.1, p.2))
          | none => none
    else if c.toNat < 32 then none
    else (parseStringBody rest).map (fun p => (c :: p.1, p.2))

/-- Fractional part of a number literal (may be absent). -/
def numFrac : List Char → Option (List Char × List Char)
  | '.' :: r =>
    let ds := r.takeWhile (fun c => c.isDigit)
    if ds = [] then none else some ('.' :: ds, r.dropWhile (fun c => c.isDigit))
  | l => some ([], l)

/-- Exponent part of a number literal (may be absent). -/
def numExp : List Char → Option (List Char × List Char)
  | [] => some ([], [])
  | c :: r =>
    if c = 'e' ∨ c = 'E' then
      match r with
      | [] => none
      | s :: r2 =>
        if s = '+' ∨ s = '-' then
          let ds := r2.takeWhile (fun x => x.isDigit)
          if ds = [] then none
          else some (c :: s :: ds, r2.dropWhile (fun x => x.isDigit))
        else
          let ds := r.takeWhile (fun x => x.isDigit)
          if ds = [] then none
          else some (c :: ds, r.dropWhile (fun x => x.isDigit))
    else some ([], c :: r)

/-- Fraction then exponent. -/
def numFracExp (l : List Char) : Option (List Char × List Char) :=
  match numFrac l with
  | none => none
  | some (f, r) => (numExp r).map (fun p => (f ++ p.1, p.2))

/-- Integer part of a number literal: `0`, or a nonzero digit followed by
digits (leading zeros rejected, as in `json.loads`). -/
def numIntPart : List Char → Option (List Char × List Char)
  | [] => none
  | '0' :: r => (numFracExp r).map (fun p => ('0' :: p.1, p.2))
  | c :: r =>
    if c.isDigit then
      (numFracExp ((c :: r).dropWhile (fun x => x.isDigit))).map
        (fun p => ((c :: r).takeWhile (fun x => x.isDigit) ++ p.1, p.2))
    else none

/-- A JSON number literal, returned as its lexeme. -/
def parseNumber : List Char → Option (Json × List Char)
  | '-' :: r =>
    (numIntPart r).map (fun p => (Json.num (String.mk ('-' :: p.1)), p.2))
  | l => (numIntPart l).map (fun p => (Json.num (String.mk p.1), p.2))

/-- Insert a member into an object under Python dict semantics: a repeated
key overwrites the value but keeps the original position. -/
def insertKey (acc : List (String × Json)) (k : String) (v : Json) :
    List (String × Json) :=
  if acc.any (fun p => p.1 == k) then
    acc.map (fun p => if p.1 == k then (k, v) else p)
  else acc ++ [(k, v)]

/-- Parser modes: a value, an object body (after `{`), the member loop,
an array body (after `[`), the element loop. -/
inductive PMode where
  | value : PMode
  | objBody : PMode
  | members (acc : List (String × Json)) : PMode
  | arrBody : PMode
  | elems (acc : List Json) : PMode

/-- Recursive-descent core of `json.loads`.  Recursion is on fuel so that
every definition is a plain structural recursion; `loads` supplies fuel
that is always sufficient (three units per input character plus slack). -/
def parseCore : Nat → PMode → List Char → Option (Json × List Char)
  | 0, _, _ => none
  | fuel + 1, PMode.value, l =>
    match l.dropWhile isJsonWs with
    | [] => none
    | c :: rest =>
      if c = '{' then parseCore fuel PMode.objBody rest
      else if c = '[' then parseCore fuel PMode.arrBody rest
      else if c = '"' then
        (parseStringBody rest).map (fun p => (Json.str (String.mk p.1), p.2))
      else if ['t', 'r', 'u', 'e'].isPrefixOf (c :: rest) then
        some (Json.bool true, (c :: rest).drop 4)
      else if ['f', 'a', 'l', 's', 'e'].isPrefixOf (c :: rest) then
        some (Json.bool false, (c :: rest).drop 5)
      else if ['n', 'u', 'l', 'l'].isPrefixOf (c :: rest) then
        some (Json.null, (c :: rest).drop 4)
      else if ['N', 'a', 'N'].isPrefixOf (c :: rest) then
        some (Json.num "NaN", (c :: rest).drop 3)
      else if ['I', 'n', 'f', 'i', 'n', 'i', 't', 'y'].isPrefixOf (c :: rest) then
        some (Json.num "Infinity", (c :: rest).drop 8)
      else if ['-', 'I', 'n', 'f', 'i', 'n', 'i', 't', 'y'].isPrefixOf (c :: rest) then
        some (Json.num "-Infinity", (c :: rest).drop 9)
      else parseNumber (c :: rest)
  | fuel + 1, PMode.objBody, l =>
    match l.dropWhile isJsonWs with
    | [] => none
    | c :: rest =>
      if c = '}' then some (Json.obj [], rest)
      else parseCore fuel (PMode.members []) (c :: rest)
  | fuel + 1, PMode.members acc, l =>
    match l.dropWhile isJsonWs with
    | [] => none
    | c :: rest =>
      if c = '"' then
        match parseStringBody rest with
        | none => none
        | some (k, r1) =>
          match r1.dropWhile isJsonWs with
          | [] => none
          | c2 :: r2 =>
            if c2 = ':' then
              match parseCore fuel PMode.value r2 with
              | none => none
              | some (v, r3) =>
                match r3.dropWhile isJsonWs with
                | [] => none
                | c3 :: r4 =>
                  if c3 = ',' then
                    parseCore fuel (PMode.members (insertKey acc (String.mk k) v)) r4
                  else if c3 = '}' then
                    some (Json.obj (insertKey acc (String.mk k) v), r4)
                  else none
            else none
      else none
  | fuel + 1, PMode.arrBody, l =>
    match l.dropWhile isJsonWs with
    | [] => none
    | c :: rest =>
      if c = ']' then some (Json.arr [], rest)
      else parseCore fuel (PMode.elems []) (c :: rest)
  | fuel + 1, PMode.elems acc, l =>
    match parseCore fuel PMode.value l with
    | none => none
    | some (v, r1) =>
      match r1.dropWhile isJsonWs with
      | [] => none
      | c2 :: r2 =>
        if c2 = ',' then parseCore fuel (PMode.elems (acc ++ [v])) r2
        else if c2 = ']' then some (Json.arr (acc ++ [v]), r2)
        else none

/-- `json.loads`: parse one value, then require only whitespace to remain
("Extra data" otherwise).  `none` models a raised `JSONDecodeError`. -/
def loads (l : List Char) : Option Json :=
  match parseCore (3 * l.length + 8) PMode.value l with
  | none => none
  | some (v, rest) => if rest.dropWhile isJsonWs = [] then some v else none

/-- One attempt of `re.search(r'"<key>":\s*"([^"]+)"', ...)` anchored at
the current position: the literal `"key":`, then `\s*`, then a quoted
non-empty run of non-quote characters. -/
def tryFieldAt (key : String) (l : List Char) : Option (List Char) :=
  let pat := '"' :: key.data ++ ['"', ':']
  if pat.isPrefixOf l then
    match (l.drop pat.length).dropWhile isWs with
    | '"' :: rest =>
      let v := rest.takeWhile (fun c => c ≠ '"')
      if v = [] then none
      else
        match rest.drop v.length with
        | '"' :: _ => some v
        | _ => none
    | _ => none
  else none

/-- `re.search` scanning: try every start position, left to right. -/
def searchField (key : String) : List Char → Option (List Char)
  | [] => none
  | c :: cs =>
    match tryFieldAt key (c :: cs) with
    | some v => some v
    | none => searchField key cs

/-- Fallback constant for the `user` field. -/
def fallbackUser : String := "IT User"

/-- Fallback constant for the `issue` field. -/
def fallbackIssue : String := "Technical issue requiring assistance"

/-- `parse_json_from_text(text)` from `It-Ticket-Gen.py`.  `now` is the
value of `datetime.now().strftime("%Y-%m-%d %H:%M")` at call time.  The
result is `none` exactly where the Python function returns `None` (the
`except` handler catching the `json.loads` failure). -/
def parse_json_from_text (now : String) (text : String) : Option Json :=
  let cleaned := cleanText text.data
  match findSpan cleaned with
  | some span => loads span
  | none =>
    let user := ((searchField "user" cleaned).map String.mk).getD fallbackUser
    let issue := ((searchField "issue" cleaned).map String.mk).getD fallbackIssue
    some (Json.obj
      [("user", Json.str user), ("issue", Json.str issue),
       ("timestamp", Json.str now)])

/-- The spec's `extraction_status` values, plus the extra outcome `failed`
that the code exhibits (a span is found but does not parse, so the function
returns `None` and no record exists to carry a status). -/
inductive ExtractionStatus where
  | full : ExtractionStatus
  | partialRec : ExtractionStatus
  | fallback : ExtractionStatus
  | failed : ExtractionStatus

/-- Modelled from the spec: the `extraction_status` discriminator (FULL /
PARTIAL / FALLBACK) realized as a derived classifier of the code's
branches — the code itself attaches no such tag to its records, and a
fourth outcome (`failed`) is needed for the branch that returns `None`. -/
def extractionTier (text : String) : ExtractionStatus :=
  let cleaned := cleanText text.data
  match findSpan cleaned with
  | some span =>
    if (loads span).isSome then ExtractionStatus.full else ExtractionStatus.failed
  | none =>
    if (searchField "user" cleaned).isSome || (searchField "issue" cleaned).isSome
    then ExtractionStatus.partialRec
    else ExtractionStatus.fallback

/-- Field lookup in a parsed record (used to state what keys a record
carries). -/
def lookupKey (k : String) : Json → Option Json
  | Json.obj ms => (ms.find? (fun p => p.1 == k)).map (fun p => p.2)
  | _ => none

end TicketGen

namespace TicketGen

/-! ### Properties of `replaceAll` (the model of `str.replace`) -/

theorem replaceAllF_fuel (pat repl : List Char) (hpat : pat ≠ []) :
    ∀ (n : Nat) (l : List Char), l.length ≤ n →
    ∀ f g, l.length ≤ f → l.length ≤ g →
    replaceAllF pat repl f l = replaceAllF pat repl g l := by
  intro n
  induction n with
  | zero =>
    intro l hl f g _ _
    have hnil : l = [] := List.length_eq_zero.mp (Nat.le_zero.mp hl)
    subst hnil
    cases f <;> cases g <;> rfl
  | succ n ih =>
    intro l hl f g hf hg
    match l with
    | [] => cases f <;> cases g <;> rfl
    | c :: cs =>
      have hplen : 1 ≤ pat.length := List.length_pos.mpr hpat
      simp only [List.length_cons] at hl hf hg
      match f, g with
      | 0, _ => omega
      | _ + 1, 0 => omega
      | f' + 1, g' + 1 =>
        simp only [replaceAllF]
        cases hp : pat.isPrefixOf (c :: cs)
        · rw [if_neg (by simp [hp]), if_neg (by simp [hp])]
          rw [ih cs (by omega) f' g' (by omega) (by omega)]
        · rw [if_pos (by simp [hp]), if_pos (by simp [hp])]
          rw [ih ((c :: cs).drop pat.length)
            (by simp only [List.length_drop, List.length_cons]; omega) f' g'
            (by simp only [List.length_drop, List.length_cons]; omega)
            (by simp only [List.length_drop, List.length_cons]; omega)]

theorem replaceAll_nomatch {pat : List Char} (repl : List Char) {c : Char}
    {cs : List Char} (h : ¬ pat.isPrefixOf (c :: cs)) :
    replaceAll pat repl (c :: cs) = c :: replaceAll pat repl cs := by
  show replaceAllF pat repl (cs.length + 1) (c :: cs) = _
  simp only [replaceAllF]
  rw [if_neg h]
  rfl

theorem replaceAll_match {pat : List Char} (repl : List Char) {c : Char}
    {cs : List Char} (hpat : pat ≠ []) (h : pat.isPrefixOf (c :: cs)) :
    replaceAll pat repl (c :: cs) =
      repl ++ replaceAll pat repl ((c :: cs).drop pat.length) := by
  have hplen : 1 ≤ pat.length := List.length_pos.mpr hpat
  show replaceAllF pat repl (cs.length + 1) (c :: cs) = _
  simp only [replaceAllF]
  rw [if_pos h]
  congr 1
  exact replaceAllF_fuel pat repl hpat (cs.length + 1) _
    (by simp only [List.length_drop, List.length_cons]; omega) _ _
    (by simp only [List.length_drop, List.length_cons]; omega)
    (by simp only [List.length_drop, List.length_cons]; omega)

theorem replaceAll_cons_ne {p0 c : Char} {pr : List Char} (repl : List Char)
    (h : p0 ≠ c) (cs : List Char) :
    replaceAll (p0 :: pr) repl (c :: cs) = c :: replaceAll (p0 :: pr) repl cs := by
  apply replaceAll_nomatch
  simp [List.isPrefixOf, h]

theorem replaceAll_no_occur {p0 : Char} {pr : List Char} (repl : List Char) :
    ∀ {l : List Char}, (∀ c ∈ l, c ≠ p0) → replaceAll (p0 :: pr) repl l = l := by
  intro l
  induction l with
  | nil => intro _; rfl
  | cons c cs ih =>
    intro h
    rw [replaceAll_cons_ne repl (fun he => h c (by simp) he.symm) cs]
    rw [ih (fun x hx => h x (by simp [hx]))]

theorem replaceAll_ws_head {p0 : Char} {pr : List Char} (repl : List Char)
    (hp0 : isWs p0 = false) :
    ∀ (w l : List Char), (∀ c ∈ w, isWs c) →
    replaceAll (p0 :: pr) repl (w ++ l) = w ++ replaceAll (p0 :: pr) repl l := by
  intro w
  induction w with
  | nil => intro l _; rfl
  | cons y w ih =>
    intro l hw
    have hy : isWs y := hw y (by simp)
    have hne : p0 ≠ y := by
      intro he; rw [he, hy] at hp0; exact Bool.noConfusion hp0
    rw [List.cons_append, replaceAll_cons_ne repl hne _, ih l (fun x hx => hw x (by simp [hx]))]
    simp

theorem replaceAll_all_ws {p0 : Char} {pr : List Char} (repl : List Char)
    (hp0 : isWs p0 = false) {w : List Char} (hw : ∀ c ∈ w, isWs c) :
    replaceAll (p0 :: pr) repl w = w := by
  have h := @replaceAll_ws_head p0 pr repl hp0 w [] hw
  have h2 : replaceAll (p0 :: pr) repl ([] : List Char) = [] := rfl
  rw [h2] at h
  simpa using h

theorem isPrefixOf_of_isPrefixOf_append {pat a b : List Char}
    (hlen : pat.length ≤ a.length) (h : pat.isPrefixOf (a ++ b)) :
    pat.isPrefixOf a := by
  rw [List.isPrefixOf_iff_prefix] at h ⊢
  rw [List.prefix_iff_eq_take] at h
  rw [List.take_append_of_le_length hlen] at h
  rw [h]
  exact List.take_prefix _ _

theorem mem_of_isPrefixOf_append_long {pat a : List Char} {y : Char}
    {b : List Char} (hlen : a.length < pat.length)
    (h : pat.isPrefixOf (a ++ y :: b)) : y ∈ pat := by
  rw [List.isPrefixOf_iff_prefix] at h
  have hlt : a.length < (a ++ y :: b).length := by simp
  have hy : (a ++ y :: b)[a.length] = y := by
    rw [List.getElem_append_right (Nat.le_refl a.length)]
    simp
  have hg := h.getElem hlen
  rw [hy] at hg
  rw [← hg]
  exact List.getElem_mem _

theorem replaceAll_append {pat : List Char} (repl : List Char)
    (hpat : pat ≠ []) {y : Char} (hy : y ∉ pat) :
    ∀ (a b : List Char),
    replaceAll pat repl (a ++ y :: b) =
      replaceAll pat repl a ++ replaceAll pat repl (y :: b) := by
  have hplen : 1 ≤ pat.length := List.length_pos.mpr hpat
  suffices H : ∀ (n : Nat) (a b : List Char), a.length ≤ n →
      replaceAll pat repl (a ++ y :: b) =
        replaceAll pat repl a ++ replaceAll pat repl (y :: b) by
    intro a b; exact H a.length a b (Nat.le_refl _)
  intro n
  induction n with
  | zero =>
    intro a b ha
    have hnil : a = [] := List.length_eq_zero.mp (Nat.le_zero.mp ha)
    subst hnil; rfl
  | succ n ih =>
    intro a b ha
    match a with
    | [] => rfl
    | c :: cs =>
      simp only [List.length_cons] at ha
      by_cases h : pat.isPrefixOf ((c :: cs) ++ y :: b)
      · by_cases hl : pat.length ≤ (c :: cs).length
        · have hpre : pat.isPrefixOf (c :: cs) := isPrefixOf_of_isPrefixOf_append hl h
          rw [List.cons_append, replaceAll_match repl hpat (by rw [← List.cons_append]; exact h),
              replaceAll_match repl hpat hpre]
          rw [← List.cons_append, List.drop_append_of_le_length hl]
          rw [ih _ b (by simp only [List.length_drop, List.length_cons]; omega)]
          simp [List.append_assoc]
        · exfalso
          exact hy (mem_of_isPrefixOf_append_long (Nat.not_le.mp hl) h)
      · have hnp : ¬ pat.isPrefixOf (c :: cs) := by
          intro hc
          exact h (by
            rw [List.isPrefixOf_iff_prefix] at hc ⊢
            exact hc.trans (List.prefix_append _ _))
        rw [List.cons_append, replaceAll_nomatch repl (by rw [← List.cons_append]; exact h),
            replaceAll_nomatch repl hnp]
        rw [ih cs b (by omega)]
        simp

end TicketGen
namespace TicketGen

/-! ### Properties of `pyStrip` (the model of `str.strip()`) -/

theorem pyStrip_cons_ws {c : Char} (h : isWs c) (l : List Char) :
    pyStrip (c :: l) = pyStrip l := by
  unfold pyStrip
  rw [List.dropWhile_cons, if_pos h]

theorem pyStrip_append_ws {c : Char} (h : isWs c) (l : List Char) :
    pyStrip (l ++ [c]) = pyStrip l := by
  unfold pyStrip
  rw [List.dropWhile_append]
  by_cases he : (l.dropWhile isWs).isEmpty
  · rw [if_pos he]
    have hnil : l.dropWhile isWs = [] := by
      cases hx : l.dropWhile isWs
      · rfl
      · rw [hx] at he; simp at he
    rw [hnil]
    simp [List.dropWhile_cons, h]
  · rw [if_neg he]
    rw [List.reverse_append]
    simp only [List.reverse_cons, List.reverse_nil, List.nil_append, List.singleton_append]
    rw [List.dropWhile_cons, if_pos h]

theorem pyStrip_ws_wrap {w1 w2 : List Char} (h1 : ∀ c ∈ w1, isWs c)
    (h2 : ∀ c ∈ w2, isWs c) (x : List Char) :
    pyStrip (w1 ++ x ++ w2) = pyStrip x := by
  induction w1 with
  | nil =>
    simp only [List.nil_append]
    induction w2 generalizing x with
    | nil => simp
    | cons y w2 ih =>
      have : x ++ y :: w2 = (x ++ [y]) ++ w2 := by simp
      rw [this, ih (fun c hc => h2 c (by simp [hc])) (x ++ [y]),
        pyStrip_append_ws (h2 y (by simp)) x]
  | cons y w1 ih =>
    rw [List.cons_append, List.cons_append, pyStrip_cons_ws (h1 y (by simp))]
    exact ih (fun c hc => h1 c (by simp [hc]))

theorem pyStrip_decomp (l : List Char) :
    ∃ w1 w2, (∀ c ∈ w1, isWs c) ∧ (∀ c ∈ w2, isWs c) ∧
      l = w1 ++ pyStrip l ++ w2 := by
  refine ⟨l.takeWhile isWs, ((l.dropWhile isWs).reverse.takeWhile isWs).reverse,
    fun c hc => List.mem_takeWhile_imp hc,
    fun c hc => List.mem_takeWhile_imp (List.mem_reverse.mp hc), ?_⟩
  have key : l.dropWhile isWs =
      ((l.dropWhile isWs).reverse.dropWhile isWs).reverse ++
        ((l.dropWhile isWs).reverse.takeWhile isWs).reverse := by
    rw [← List.reverse_append, List.takeWhile_append_dropWhile, List.reverse_reverse]
  conv_lhs => rw [← List.takeWhile_append_dropWhile isWs l]
  rw [List.append_assoc]
  congr 1

theorem pyStrip_idem (l : List Char) : pyStrip (pyStrip l) = pyStrip l := by
  obtain ⟨w1, w2, h1, h2, hd⟩ := pyStrip_decomp l
  conv_rhs => rw [hd]
  rw [pyStrip_ws_wrap h1 h2]

theorem pyStrip_head_last {c d : Char} (hc : isWs c = false)
    (hd : isWs d = false) (l : List Char) :
    pyStrip (c :: (l ++ [d])) = c :: (l ++ [d]) := by
  unfold pyStrip
  rw [List.dropWhile_cons, if_neg (by simp [hc])]
  rw [List.reverse_cons, List.reverse_append, List.reverse_singleton,
    List.singleton_append, List.cons_append]
  rw [List.dropWhile_cons, if_neg (by simp [hd])]
  simp

end TicketGen
namespace TicketGen

/-! ### Properties of `cleanText` -/

theorem replaceAll_ws_wrap {p0 : Char} {pr : List Char} (hp0 : isWs p0 = false)
    (hnws : ∀ c ∈ p0 :: pr, isWs c = false)
    {w1 w2 : List Char} (h1 : ∀ c ∈ w1, isWs c) (h2 : ∀ c ∈ w2, isWs c)
    (x : List Char) :
    replaceAll (p0 :: pr) [] (w1 ++ x ++ w2) =
      w1 ++ replaceAll (p0 :: pr) [] x ++ w2 := by
  rw [List.append_assoc, replaceAll_ws_head [] hp0 w1 _ h1]
  match w2 with
  | [] =>
    rw [List.append_nil, List.append_nil]
  | y :: w2' =>
    have hyn : y ∉ p0 :: pr := by
      intro hm
      have hf := hnws y hm
      have ht : isWs y := h2 y (by simp)
      rw [ht] at hf
      exact Bool.noConfusion hf
    rw [replaceAll_append [] (by simp) hyn x w2']
    rw [replaceAll_all_ws [] hp0 (fun c hc => h2 c hc)]
    rw [List.append_assoc]

theorem cleanText_eq_nostrip (l : List Char) :
    cleanText l =
      pyStrip (replaceAll fencePat [] (replaceAll fenceJsonPat [] l)) := by
  unfold cleanText
  obtain ⟨w1, w2, h1, h2, hd⟩ := pyStrip_decomp l
  conv_rhs => rw [hd]
  simp only [fenceJsonPat, fencePat]
  rw [replaceAll_ws_wrap (by decide) (by decide) h1 h2 (pyStrip l)]
  rw [replaceAll_ws_wrap (by decide) (by decide) h1 h2
    (replaceAll ['`', '`', '`', 'j', 's', 'o', 'n'] [] (pyStrip l))]
  rw [pyStrip_ws_wrap h1 h2]

end TicketGen
namespace TicketGen

theorem replaceAll_match' {pat : List Char} (repl : List Char) (hpat : pat ≠ [])
    {l : List Char} (h : pat.isPrefixOf l) :
    replaceAll pat repl l = repl ++ replaceAll pat repl (l.drop pat.length) := by
  match pat, hpat with
  | p0 :: pr, _ =>
    match l with
    | [] => simp [List.isPrefixOf] at h
    | c :: cs => exact replaceAll_match repl (by simp) h

theorem r2_tail (q : List Char) :
    replaceAll fencePat [] ('\n' :: (q ++ ('\n' :: fencePat))) =
      '\n' :: (replaceAll fencePat [] q ++ ['\n']) := by
  simp only [fencePat]
  rw [replaceAll_cons_ne [] (by decide) _]
  rw [replaceAll_append [] (by decide) (by decide) q _]
  rw [show replaceAll ['`', '`', '`'] [] ('\n' :: ['`', '`', '`']) = ['\n'] from rfl]

theorem cleanText_fenceJson (p : List Char) :
    cleanText (fenceJsonPat ++ ('\n' :: (p ++ ('\n' :: fencePat)))) = cleanText p := by
  rw [cleanText_eq_nostrip, cleanText_eq_nostrip]
  have h1 : replaceAll fenceJsonPat [] (fenceJsonPat ++ ('\n' :: (p ++ ('\n' :: fencePat)))) =
      '\n' :: (replaceAll fenceJsonPat [] p ++ ('\n' :: fencePat)) := by
    rw [replaceAll_match' [] (by decide)
      (List.isPrefixOf_iff_prefix.mpr (List.prefix_append _ _))]
    rw [List.drop_left]
    simp only [fenceJsonPat, fencePat]
    rw [replaceAll_cons_ne [] (by decide) _]
    rw [replaceAll_append [] (by decide) (by decide) p _]
    rw [show replaceAll ['`', '`', '`', 'j', 's', 'o', 'n'] []
      ('\n' :: ['`', '`', '`']) = ('\n' :: ['`', '`', '`']) from rfl]
    rw [List.nil_append]
  rw [h1, r2_tail]
  rw [pyStrip_cons_ws (by decide), pyStrip_append_ws (by decide)]

end TicketGen
namespace TicketGen

theorem cleanText_fencePlain (p : List Char) :
    cleanText (fencePat ++ ('\n' :: (p ++ ('\n' :: fencePat)))) = cleanText p := by
  rw [cleanText_eq_nostrip, cleanText_eq_nostrip]
  have hnp1 : ∀ rest : List Char,
      ¬ fenceJsonPat.isPrefixOf ('`' :: '`' :: '`' :: '\n' :: rest) := by
    intro rest
    simp [fenceJsonPat, List.isPrefixOf]
  have hnp2 : ∀ rest : List Char,
      ¬ fenceJsonPat.isPrefixOf ('`' :: '`' :: '\n' :: rest) := by
    intro rest
    simp [fenceJsonPat, List.isPrefixOf]
  have hnp3 : ∀ rest : List Char,
      ¬ fenceJsonPat.isPrefixOf ('`' :: '\n' :: rest) := by
    intro rest
    simp [fenceJsonPat, List.isPrefixOf]
  have h1 : replaceAll fenceJsonPat [] (fencePat ++ ('\n' :: (p ++ ('\n' :: fencePat)))) =
      '`' :: '`' :: '`' :: '\n' :: (replaceAll fenceJsonPat [] p ++ ('\n' :: fencePat)) := by
    rw [show fencePat ++ ('\n' :: (p ++ ('\n' :: fencePat))) =
      '`' :: '`' :: '`' :: '\n' :: (p ++ ('\n' :: fencePat)) from rfl]
    rw [replaceAll_nomatch [] (hnp1 _), replaceAll_nomatch [] (hnp2 _),
        replaceAll_nomatch [] (hnp3 _)]
    have : replaceAll fenceJsonPat [] ('\n' :: (p ++ ('\n' :: fencePat))) =
        '\n' :: (replaceAll fenceJsonPat [] p ++ ('\n' :: fencePat)) := by
      simp only [fenceJsonPat, fencePat]
      rw [replaceAll_cons_ne [] (by decide) _]
      rw [replaceAll_append [] (by decide) (by decide) p _]
      rw [show replaceAll ['`', '`', '`', 'j', 's', 'o', 'n'] []
        ('\n' :: ['`', '`', '`']) = ('\n' :: ['`', '`', '`']) from rfl]
    rw [this]
  rw [h1]
  have h2 : replaceAll fencePat []
      ('`' :: '`' :: '`' :: '\n' :: (replaceAll fenceJsonPat [] p ++ ('\n' :: fencePat))) =
      '\n' :: (replaceAll fencePat [] (replaceAll fenceJsonPat [] p) ++ ['\n']) := by
    rw [replaceAll_match' [] (by decide)
      (by simp [fencePat, List.isPrefixOf])]
    rw [show List.drop fencePat.length
      ('`' :: '`' :: '`' :: '\n' :: (replaceAll fenceJsonPat [] p ++ ('\n' :: fencePat))) =
      '\n' :: (replaceAll fenceJsonPat [] p ++ ('\n' :: fencePat)) from rfl]
    rw [r2_tail, List.nil_append]
  rw [h2]
  rw [pyStrip_cons_ws (by decide), pyStrip_append_ws (by decide)]

end TicketGen
namespace TicketGen

theorem mem_of_mem_pyStrip {c : Char} {l : List Char} (hc : c ∈ pyStrip l) :
    c ∈ l := by
  unfold pyStrip at hc
  rw [List.mem_reverse] at hc
  have h1 := (List.dropWhile_sublist (l := (l.dropWhile isWs).reverse) isWs).mem hc
  rw [List.mem_reverse] at h1
  exact (List.dropWhile_sublist isWs).mem h1

theorem cleanText_no_backtick {l : List Char} (h : ∀ c ∈ l, c ≠ '`') :
    cleanText l = pyStrip l := by
  unfold cleanText
  have hs : ∀ c ∈ pyStrip l, c ≠ '`' := fun c hc => h c (mem_of_mem_pyStrip hc)
  have h1 : replaceAll fenceJsonPat [] (pyStrip l) = pyStrip l := by
    simp only [fenceJsonPat]
    exact replaceAll_no_occur [] hs
  have h2 : replaceAll fencePat [] (pyStrip l) = pyStrip l := by
    simp only [fencePat]
    exact replaceAll_no_occur [] hs
  rw [h1, h2, pyStrip_idem]

theorem parse_congr (now : String) {a b : String}
    (h : cleanText a.data = cleanText b.data) :
    parse_json_from_text now a = parse_json_from_text now b := by
  unfold parse_json_from_text
  rw [h]

theorem tier_congr {a b : String} (h : cleanText a.data = cleanText b.data) :
    extractionTier a = extractionTier b := by
  unfold extractionTier
  rw [h]

end TicketGen
namespace TicketGen

theorem findSpan_shape (mid : List Char) :
    findSpan ('{' :: (mid ++ ['}'])) = some ('{' :: (mid ++ ['}'])) := by
  unfold findSpan
  simp [List.dropWhile_cons, List.reverse_append]

end TicketGen
namespace TicketGen

/-! ### Evaluation lemmas for the extractor's branches -/

theorem parse_eval_span (now : String) (s : String) (sp : List Char)
    (h : findSpan (cleanText s.data) = some sp) :
    parse_json_from_text now s = loads sp := by
  simp only [parse_json_from_text]
  rw [h]

theorem parse_eval_recovery (now : String) (s : String)
    (h : findSpan (cleanText s.data) = none) :
    parse_json_from_text now s = some (Json.obj
      [("user", Json.str (((searchField "user" (cleanText s.data)).map String.mk).getD fallbackUser)),
       ("issue", Json.str (((searchField "issue" (cleanText s.data)).map String.mk).getD fallbackIssue)),
       ("timestamp", Json.str now)]) := by
  simp only [parse_json_from_text]
  rw [h]

theorem tier_eval_full (s : String) (sp : List Char)
    (h1 : findSpan (cleanText s.data) = some sp) (h2 : (loads sp).isSome) :
    extractionTier s = ExtractionStatus.full := by
  simp only [extractionTier]
  rw [h1]
  simp [h2]

theorem tier_eval_failed (s : String) (sp : List Char)
    (h1 : findSpan (cleanText s.data) = some sp) (h2 : loads sp = none) :
    extractionTier s = ExtractionStatus.failed := by
  simp only [extractionTier]
  rw [h1]
  simp [h2]

theorem tier_eval_fallback (s : String)
    (h1 : findSpan (cleanText s.data) = none)
    (h2 : searchField "user" (cleanText s.data) = none)
    (h3 : searchField "issue" (cleanText s.data) = none) :
    extractionTier s = ExtractionStatus.fallback := by
  simp only [extractionTier]
  rw [h1, h2, h3]
  rfl

theorem tryFieldAt_some_ne_nil {key : String} {l v : List Char}
    (h : tryFieldAt key l = some v) : v ≠ [] := by
  unfold tryFieldAt at h
  simp only [] at h
  repeat' split at h
  all_goals first
    | (injection h with h2; subst h2; assumption)
    | simp at h

theorem searchField_some_ne_nil {key : String} :
    ∀ {l v : List Char}, searchField key l = some v → v ≠ [] := by
  intro l
  induction l with
  | nil => intro v h; simp [searchField] at h
  | cons c cs ih =>
    intro v h
    unfold searchField at h
    cases ht : tryFieldAt key (c :: cs) with
    | some w =>
      rw [ht] at h
      simp at h
      subst h
      exact tryFieldAt_some_ne_nil ht
    | none =>
      rw [ht] at h
      exact ih h

theorem String_mk_ne_empty {v : List Char} (hv : v ≠ []) :
    String.mk v ≠ "" := by
  intro he
  exact hv (congrArg String.data he)

end TicketGen
namespace TicketGen

theorem tier_eval_partial (s : String)
    (h1 : findSpan (cleanText s.data) = none)
    (h2 : ((searchField "user" (cleanText s.data)).isSome ||
      (searchField "issue" (cleanText s.data)).isSome) = true) :
    extractionTier s = ExtractionStatus.partialRec := by
  simp only [extractionTier]
  rw [h1]
  simp [h2]

/-! ### Claim C1 -/

/-- Claim C1 (amended): the extractor never raises, but it is not total in
the claimed sense: it returns `none` exactly when the cleaned text contains
a brace-delimited span that fails to parse as JSON; only when no span
exists does it guarantee a record with both required fields present and
non-empty. -/
theorem c1_totality_amended (now s : String) :
    (parse_json_from_text now s = none ↔
      ∃ sp, findSpan (cleanText s.data) = some sp ∧ loads sp = none)
  ∧ (findSpan (cleanText s.data) = none →
      ∃ u iv, parse_json_from_text now s =
        some (Json.obj [("user", Json.str u), ("issue", Json.str iv),
          ("timestamp", Json.str now)]) ∧ u ≠ "" ∧ iv ≠ "") := by
  constructor
  · constructor
    · intro h
      cases hs : findSpan (cleanText s.data) with
      | none =>
        rw [parse_eval_recovery now s hs] at h
        exact absurd h (by simp)
      | some sp =>
        rw [parse_eval_span now s sp hs] at h
        exact ⟨sp, rfl, h⟩
    · rintro ⟨sp, h1, h2⟩
      rw [parse_eval_span now s sp h1, h2]
  · intro hs
    rw [parse_eval_recovery now s hs]
    refine ⟨_, _, rfl, ?_, ?_⟩
    · cases hu : searchField "user" (cleanText s.data) with
      | none => decide
      | some v => exact String_mk_ne_empty (searchField_some_ne_nil hu)
    · cases hi : searchField "issue" (cleanText s.data) with
      | none => decide
      | some v => exact String_mk_ne_empty (searchField_some_ne_nil hi)

/-- Claim C1 counterexample: on input `{x}` the extractor returns `none`,
so a record is not always produced. -/
theorem c1_counterexample :
    parse_json_from_text "2024-05-01 10:00" "\x7bx\x7d" = none := rfl

/-- Claim C1 witness for the amended statement. -/
theorem c1_witness :
    parse_json_from_text "2024-05-01 10:11" "\x7bzz\x7d" = none :=
  (c1_totality_amended "2024-05-01 10:11" "\x7bzz\x7d").1.mpr
    ⟨['{', 'z', 'z', '}'], rfl, rfl⟩

end TicketGen
namespace TicketGen

/-! ### Claim C2 -/

/-- Claim C2 (amended): when the cleaned text contains a brace-delimited
span that fails to parse as JSON, tier 1 is abandoned but the extractor
does not fall through to pattern recovery: the `json.loads` exception is
caught by the surrounding handler and the whole call returns `none`.
Pattern recovery runs only when no brace-delimited span exists at all. -/
theorem c2_malformed_span_returns_none (now s : String) (sp : List Char)
    (h1 : findSpan (cleanText s.data) = some sp) (h2 : loads sp = none) :
    parse_json_from_text now s = none := by
  rw [parse_eval_span now s sp h1, h2]

/-- Claim C2 counterexample: input `{ broken }` has a brace-delimited span
that fails to parse, yet the caller receives `none`, not a PARTIAL or
FALLBACK record. -/
theorem c2_counterexample :
    findSpan (cleanText ("\x7b broken \x7d" : String).data) =
      some ['{', ' ', 'b', 'r', 'o', 'k', 'e', 'n', ' ', '}']
  ∧ loads ['{', ' ', 'b', 'r', 'o', 'k', 'e', 'n', ' ', '}'] = none
  ∧ parse_json_from_text "2024-05-01 10:03" "\x7b broken \x7d" = none :=
  ⟨rfl, rfl, rfl⟩

/-- Claim C2 witness for the amended statement. -/
theorem c2_witness :
    parse_json_from_text "2024-05-01 10:04" "\x7bx\x7d" = none :=
  c2_malformed_span_returns_none "2024-05-01 10:04" "\x7bx\x7d"
    ['{', 'x', '}'] rfl rfl

/-! ### Claim C3 -/

/-- Claim C3 (amended): tier 1 performs no emptiness check on field
values; a structurally well-formed JSON object is returned verbatim even
when a required field is the empty string.  In particular the given input
yields the parsed object with `user = ""`, not a PARTIAL record. -/
theorem c3_empty_field_passthrough (now : String) :
    parse_json_from_text now "\x7b\"user\": \"\", \"issue\": \"Something\"\x7d" =
      some (Json.obj [("user", Json.str ""), ("issue", Json.str "Something")]) := rfl

/-- Claim C3 counterexample: the input with an empty `user` field is
returned as parsed, with the empty string and not the fallback constant. -/
theorem c3_counterexample :
    parse_json_from_text "2024-05-01 10:05" "\x7b\"user\": \"\", \"issue\": \"Something\"\x7d" =
      some (Json.obj [("user", Json.str ""), ("issue", Json.str "Something")])
  ∧ Json.str "" ≠ Json.str "IT User" := by
  refine ⟨rfl, ?_⟩
  intro h
  injection h with h2
  exact absurd h2 (by decide)

/-! ### Claim C4 -/

/-- Claim C4 (amended): the code attaches no `extraction_status` field to
any record; the spec's status exists only as the derived classifier
`extractionTier`, which adds a fourth outcome: `full` returns the parsed
JSON verbatim, `partialRec` and `fallback` build a record with exactly the
keys `user`, `issue`, `timestamp`, and `failed` (span present but
unparsable) returns no record at all. -/
theorem c4_status_characterization (now s : String) :
    (extractionTier s = ExtractionStatus.full →
      ∃ sp j, findSpan (cleanText s.data) = some sp ∧ loads sp = some j ∧
        parse_json_from_text now s = some j)
  ∧ (extractionTier s = ExtractionStatus.partialRec →
      ((searchField "user" (cleanText s.data)).isSome ∨
        (searchField "issue" (cleanText s.data)).isSome) ∧
      ∃ u iv, parse_json_from_text now s =
        some (Json.obj [("user", Json.str u), ("issue", Json.str iv),
          ("timestamp", Json.str now)]))
  ∧ (extractionTier s = ExtractionStatus.fallback →
      parse_json_from_text now s = some (Json.obj
        [("user", Json.str fallbackUser), ("issue", Json.str fallbackIssue),
         ("timestamp", Json.str now)]))
  ∧ (extractionTier s = ExtractionStatus.failed →
      parse_json_from_text now s = none) := by
  cases hs : findSpan (cleanText s.data) with
  | some sp =>
    cases hl : loads sp with
    | some j =>
      have ht : extractionTier s = ExtractionStatus.full :=
        tier_eval_full s sp hs (by rw [hl]; rfl)
      refine ⟨fun _ => ⟨sp, j, rfl, hl, by rw [parse_eval_span now s sp hs, hl]⟩,
        fun h => absurd (ht.symm.trans h) (by simp),
        fun h => absurd (ht.symm.trans h) (by simp),
        fun h => absurd (ht.symm.trans h) (by simp)⟩
    | none =>
      have ht : extractionTier s = ExtractionStatus.failed :=
        tier_eval_failed s sp hs hl
      refine ⟨fun h => absurd (ht.symm.trans h) (by simp),
        fun h => absurd (ht.symm.trans h) (by simp),
        fun h => absurd (ht.symm.trans h) (by simp),
        fun _ => by rw [parse_eval_span now s sp hs, hl]⟩
  | none =>
    cases hu : searchField "user" (cleanText s.data) with
    | some v =>
      have ht : extractionTier s = ExtractionStatus.partialRec :=
        tier_eval_partial s hs (by rw [hu]; rfl)
      refine ⟨fun h => absurd (ht.symm.trans h) (by simp),
        fun _ => ⟨Or.inl rfl, _, _, parse_eval_recovery now s hs⟩,
        fun h => absurd (ht.symm.trans h) (by simp),
        fun h => absurd (ht.symm.trans h) (by simp)⟩
    | none =>
      cases hi : searchField "issue" (cleanText s.data) with
      | some w =>
        have ht : extractionTier s = ExtractionStatus.partialRec :=
          tier_eval_partial s hs (by rw [hu, hi]; rfl)
        refine ⟨fun h => absurd (ht.symm.trans h) (by simp),
          fun _ => ⟨Or.inr rfl, _, _, parse_eval_recovery now s hs⟩,
          fun h => absurd (ht.symm.trans h) (by simp),
          fun h => absurd (ht.symm.trans h) (by simp)⟩
      | none =>
        have ht : extractionTier s = ExtractionStatus.fallback :=
          tier_eval_fallback s hs hu hi
        refine ⟨fun h => absurd (ht.symm.trans h) (by simp),
          fun h => absurd (ht.symm.trans h) (by simp),
          fun _ => by rw [parse_eval_recovery now s hs, hu, hi]; rfl,
          fun h => absurd (ht.symm.trans h) (by simp)⟩

/-- Claim C4 counterexample: a returned record carries no
`extraction_status` key at all. -/
theorem c4_counterexample :
    parse_json_from_text "2024-05-01 10:06" "no json here" =
      some (Json.obj [("user", Json.str "IT User"),
        ("issue", Json.str "Technical issue requiring assistance"),
        ("timestamp", Json.str "2024-05-01 10:06")])
  ∧ lookupKey "extraction_status"
      (Json.obj [("user", Json.str "IT User"),
        ("issue", Json.str "Technical issue requiring assistance"),
        ("timestamp", Json.str "2024-05-01 10:06")]) = none :=
  ⟨rfl, rfl⟩

/-- Claim C4 witness for the amended statement. -/
theorem c4_witness :
    parse_json_from_text "2024-05-01 10:07" "no structured signal" =
      some (Json.obj [("user", Json.str fallbackUser),
        ("issue", Json.str fallbackIssue),
        ("timestamp", Json.str "2024-05-01 10:07")]) :=
  (c4_status_characterization "2024-05-01 10:07" "no structured signal").2.2.1 rfl

end TicketGen
namespace TicketGen

/-! ### Claim C5 -/

/-- Claim C5 counterexample: a well-formed JSON object whose `user` value
contains a triple backtick is not recovered verbatim: the fence stripping
deletes the backticks before parsing. -/
theorem c5_counterexample :
    parse_json_from_text "2024-05-01 10:08" "\x7b\"user\": \"a```b\", \"issue\": \"c\"\x7d" =
      some (Json.obj [("user", Json.str "ab"), ("issue", Json.str "c")])
  ∧ ("ab" : String) ≠ "a```b" :=
  ⟨rfl, by decide⟩

/-! ### Claim C6 -/

/-- Claim C6 (amended): the extractor is a pure function of the input text
and the current clock reading; the tier-1 path (a brace span exists) does
not depend on the clock, but the recovery path stamps the record with the
current time, so the extractor is not deterministic in the input alone. -/
theorem c6_clock_independent_on_span (t1 t2 s : String) (sp : List Char)
    (h : findSpan (cleanText s.data) = some sp) :
    parse_json_from_text t1 s = parse_json_from_text t2 s := by
  rw [parse_eval_span t1 s sp h, parse_eval_span t2 s sp h]

/-- Claim C6 counterexample: the same input extracted at two different
clock readings yields different records (the timestamps differ). -/
theorem c6_counterexample :
    parse_json_from_text "2024-05-01 10:00" "hello" ≠
      parse_json_from_text "2024-05-01 10:01" "hello" := by
  intro h
  have h1 : parse_json_from_text "2024-05-01 10:00" "hello" =
      some (Json.obj [("user", Json.str "IT User"),
        ("issue", Json.str "Technical issue requiring assistance"),
        ("timestamp", Json.str "2024-05-01 10:00")]) := rfl
  have h2 : parse_json_from_text "2024-05-01 10:01" "hello" =
      some (Json.obj [("user", Json.str "IT User"),
        ("issue", Json.str "Technical issue requiring assistance"),
        ("timestamp", Json.str "2024-05-01 10:01")]) := rfl
  rw [h1, h2] at h
  simp at h

/-- Claim C6 witness for the amended statement. -/
theorem c6_witness :
    parse_json_from_text "2024-05-01 10:00" "\x7b\x7d" =
      parse_json_from_text "2024-05-01 10:01" "\x7b\x7d" :=
  c6_clock_independent_on_span "2024-05-01 10:00" "2024-05-01 10:01"
    "\x7b\x7d" ['{', '}'] rfl

end TicketGen
namespace TicketGen

/-! ### Claim C7 -/

/-- Claim C7: wrapping any payload in markdown code fences (leading
 ```json or ``` on its own line, trailing ``` on its own line) does not
change the extraction result, and when the unfenced payload parses (tier-1
success), the fenced text is likewise classified `full`. -/
theorem c7_fence_invariance (now p : String) :
    parse_json_from_text now ("```json\n" ++ p ++ "\n```") =
      parse_json_from_text now p
  ∧ parse_json_from_text now ("```\n" ++ p ++ "\n```") =
      parse_json_from_text now p
  ∧ extractionTier ("```json\n" ++ p ++ "\n```") = extractionTier p
  ∧ extractionTier ("```\n" ++ p ++ "\n```") = extractionTier p
  ∧ (∀ sp, findSpan (cleanText p.data) = some sp → (loads sp).isSome →
      extractionTier ("```json\n" ++ p ++ "\n```") = ExtractionStatus.full
      ∧ extractionTier ("```\n" ++ p ++ "\n```") = ExtractionStatus.full) := by
  have hd1 : ("```json\n" ++ p ++ "\n```" : String).data =
      fenceJsonPat ++ ('\n' :: (p.data ++ ('\n' :: fencePat))) := by
    rw [String.data_append, String.data_append]
    rw [show ("```json\n" : String).data =
      '`' :: '`' :: '`' :: 'j' :: 's' :: 'o' :: 'n' :: '\n' :: [] from rfl]
    rw [show ("\n```" : String).data = '\n' :: '`' :: '`' :: '`' :: [] from rfl]
    simp [fenceJsonPat, fencePat]
  have hd2 : ("```\n" ++ p ++ "\n```" : String).data =
      fencePat ++ ('\n' :: (p.data ++ ('\n' :: fencePat))) := by
    rw [String.data_append, String.data_append]
    rw [show ("```\n" : String).data = '`' :: '`' :: '`' :: '\n' :: [] from rfl]
    rw [show ("\n```" : String).data = '\n' :: '`' :: '`' :: '`' :: [] from rfl]
    simp [fencePat]
  have hcc1 : cleanText ("```json\n" ++ p ++ "\n```" : String).data =
      cleanText p.data := by
    rw [hd1]
    exact cleanText_fenceJson p.data
  have hcc2 : cleanText ("```\n" ++ p ++ "\n```" : String).data =
      cleanText p.data := by
    rw [hd2]
    exact cleanText_fencePlain p.data
  refine ⟨parse_congr now hcc1, parse_congr now hcc2,
    tier_congr hcc1, tier_congr hcc2, ?_⟩
  intro sp h1 h2
  constructor
  · rw [tier_congr hcc1]
    exact tier_eval_full p sp h1 h2
  · rw [tier_congr hcc2]
    exact tier_eval_full p sp h1 h2

/-- Claim C7 witness: a concrete fenced, well-formed payload is classified
`full`. -/
theorem c7_witness :
    extractionTier ("```json\n" ++ "\x7b\"user\":\"A from B\",\"issue\":\"C\"\x7d" ++ "\n```") =
      ExtractionStatus.full :=
  ((c7_fence_invariance "2024-05-01 10:12"
      "\x7b\"user\":\"A from B\",\"issue\":\"C\"\x7d").2.2.2.2
    ['{', '"', 'u', 's', 'e', 'r', '"', ':', '"', 'A', ' ', 'f', 'r', 'o', 'm',
     ' ', 'B', '"', ',', '"', 'i', 's', 's', 'u', 'e', '"', ':', '"', 'C', '"', '}']
    rfl rfl).1

/-! ### Claim C8 -/

/-- Claim C8 (amended): code-fence stripping is an unconditional global
replace, so it is content-preserving only on backtick-free text: for such
text the cleaning pipeline reduces to whitespace stripping.  A triple
backtick inside a field value does not survive (see the counterexample). -/
theorem c8_strip_backtick_free (s : String)
    (h : ∀ c ∈ s.data, c ≠ '`') :
    cleanText s.data = pyStrip s.data :=
  cleanText_no_backtick h

/-- Claim C8 counterexample: a triple backtick inside the `issue` value is
deleted by the cleaning pipeline, so the value does not survive
extraction unchanged. -/
theorem c8_counterexample :
    parse_json_from_text "2024-05-01 10:13" "\x7b\"user\": \"u\", \"issue\": \"a```b\"\x7d" =
      some (Json.obj [("user", Json.str "u"), ("issue", Json.str "ab")])
  ∧ ("ab" : String) ≠ "a```b" :=
  ⟨rfl, by decide⟩

/-- Claim C8 witness for the amended statement. -/
theorem c8_witness :
    cleanText ("\x7b\"user\": \"u\"\x7d" : String).data =
      pyStrip ("\x7b\"user\": \"u\"\x7d" : String).data :=
  c8_strip_backtick_free "\x7b\"user\": \"u\"\x7d" (by decide)

/-! ### Claim C9 -/

/-- Claim C9 (amended): when the cleaned text contains no brace-delimited
span and neither per-field pattern matches, the extractor returns the
record built from the fallback constants (tier `fallback`).  When a span
exists but is unparsable, it instead returns `none` (see the
counterexample). -/
theorem c9_fallback_on_no_signal (now s : String)
    (h1 : findSpan (cleanText s.data) = none)
    (h2 : searchField "user" (cleanText s.data) = none)
    (h3 : searchField "issue" (cleanText s.data) = none) :
    parse_json_from_text now s = some (Json.obj
      [("user", Json.str fallbackUser), ("issue", Json.str fallbackIssue),
       ("timestamp", Json.str now)])
  ∧ extractionTier s = ExtractionStatus.fallback := by
  constructor
  · rw [parse_eval_recovery now s h1, h2, h3]
    rfl
  · exact tier_eval_fallback s h1 h2 h3

/-- Claim C9 counterexample: input `{oops}` has no parsable JSON span and
no per-field pattern, yet the extractor returns `none` instead of the
fallback record. -/
theorem c9_counterexample :
    findSpan (cleanText ("\x7boops\x7d" : String).data) =
      some ['{', 'o', 'o', 'p', 's', '}']
  ∧ loads ['{', 'o', 'o', 'p', 's', '}'] = none
  ∧ searchField "user" (cleanText ("\x7boops\x7d" : String).data) = none
  ∧ searchField "issue" (cleanText ("\x7boops\x7d" : String).data) = none
  ∧ parse_json_from_text "2024-05-01 10:14" "\x7boops\x7d" = none :=
  ⟨rfl, rfl, rfl, rfl, rfl⟩

/-- Claim C9 witness: the spec's own no-signal example. -/
theorem c9_witness :
    parse_json_from_text "2024-05-01 10:15" "I cannot help with that request." =
      some (Json.obj
        [("user", Json.str fallbackUser), ("issue", Json.str fallbackIssue),
         ("timestamp", Json.str "2024-05-01 10:15")])
  ∧ extractionTier "I cannot help with that request." = ExtractionStatus.fallback :=
  c9_fallback_on_no_signal "2024-05-01 10:15" "I cannot help with that request."
    rfl rfl rfl

/-! ### Claim C10 -/

/-- Claim C10: when the strict-JSON tier parses, the function returns the
parsed value exactly as parsed (whatever keys it has); only the recovery
and fallback path constructs a record, and that record has exactly the
keys `user`, `issue`, `timestamp`.  The key sets of the two paths are thus
produced by different rules. -/
theorem c10_branch_key_shapes (now s : String) :
    (∀ sp j, findSpan (cleanText s.data) = some sp → loads sp = some j →
      parse_json_from_text now s = some j)
  ∧ (findSpan (cleanText s.data) = none →
      ∃ u iv, parse_json_from_text now s = some (Json.obj
        [("user", Json.str u), ("issue", Json.str iv),
         ("timestamp", Json.str now)])) := by
  constructor
  · intro sp j h1 h2
    rw [parse_eval_span now s sp h1, h2]
  · intro h
    rw [parse_eval_recovery now s h]
    exact ⟨_, _, rfl⟩

/-- Claim C10 witness: a parsed object with an unrelated key passes
through unfiltered. -/
theorem c10_witness :
    parse_json_from_text "2024-05-01 10:16" "\x7b\"a\": 1\x7d" =
      some (Json.obj [("a", Json.num "1")]) :=
  (c10_branch_key_shapes "2024-05-01 10:16" "\x7b\"a\": 1\x7d").1
    ['{', '"', 'a', '"', ':', ' ', '1', '}'] (Json.obj [("a", Json.num "1")])
    rfl rfl

end TicketGen

namespace TicketGen

/-! ### Further structure of `pyStrip` and backtick-free cleaning -/

theorem head?_dropWhile_not (p : Char → Bool) :
    ∀ (l : List Char) (c : Char), (l.dropWhile p).head? = some c → p c = false := by
  intro l
  induction l with
  | nil => intro c h; simp at h
  | cons a x ih =>
    intro c h
    rw [List.dropWhile_cons] at h
    by_cases hp : p a
    · rw [if_pos hp] at h
      exact ih c h
    · rw [if_neg hp] at h
      simp at h
      rw [← h]
      exact Bool.of_not_eq_true hp

theorem pyStrip_prefix (l : List Char) : pyStrip l <+: l.dropWhile isWs := by
  unfold pyStrip
  rw [← List.reverse_suffix]
  rw [List.reverse_reverse]
  exact List.dropWhile_suffix isWs

theorem pyStrip_head_not_ws {l : List Char} {c : Char}
    (h : (pyStrip l).head? = some c) : isWs c = false := by
  obtain ⟨t, ht⟩ := pyStrip_prefix l
  cases hs : pyStrip l with
  | nil => rw [hs] at h; simp at h
  | cons d rest =>
    rw [hs] at h ht
    simp at h
    apply head?_dropWhile_not isWs l c
    rw [← ht]
    simp [h]

theorem pyStrip_getLast_not_ws {l : List Char} {c : Char}
    (h : (pyStrip l).getLast? = some c) : isWs c = false := by
  unfold pyStrip at h
  rw [List.getLast?_reverse] at h
  exact head?_dropWhile_not isWs _ c h

theorem not_jsonWs_of_not_ws {c : Char} (h : isWs c = false) :
    isJsonWs c = false := by
  revert h
  simp [isWs, isJsonWs]
  tauto

theorem replaceAll_absent {pat : List Char} (repl : List Char) :
    ∀ l, ¬ (pat <:+: l) → replaceAll pat repl l = l := by
  intro l
  induction l with
  | nil => intro _; rfl
  | cons c cs ih =>
    intro h
    have hnp : ¬ pat.isPrefixOf (c :: cs) := by
      intro hp
      exact h (List.IsPrefix.isInfix (List.isPrefixOf_iff_prefix.mp hp))
    rw [replaceAll_nomatch repl hnp, ih (fun hin => h (List.infix_cons hin))]

theorem pyStrip_isInfix (l : List Char) : pyStrip l <:+: l := by
  obtain ⟨w1, w2, _, _, hd⟩ := pyStrip_decomp l
  exact ⟨w1, w2, hd.symm⟩

theorem cleanText_no_fence {l : List Char} (h : ¬ (fencePat <:+: l)) :
    cleanText l = pyStrip l := by
  unfold cleanText
  have hsub : ¬ (fencePat <:+: pyStrip l) :=
    fun hin => h (hin.trans (pyStrip_isInfix l))
  have hjson : ¬ (fenceJsonPat <:+: pyStrip l) := by
    intro hin
    exact hsub ((List.IsPrefix.isInfix (by decide)).trans hin)
  rw [replaceAll_absent [] _ hjson]
  rw [replaceAll_absent [] _ hsub]
  exact pyStrip_idem l

end TicketGen
namespace TicketGen

/-! ### The parsers consume a prefix: every result remainder is a suffix -/

theorem suffix_cons2 (a b : Char) (l : List Char) : l <:+ a :: b :: l :=
  ⟨[a, b], rfl⟩

theorem suffix_cons6 (a b c d e f : Char) (l : List Char) :
    l <:+ a :: b :: c :: d :: e :: f :: l :=
  ⟨[a, b, c, d, e, f], rfl⟩

theorem parseStringBody_suffix :
    ∀ (n : Nat) (l : List Char), l.length ≤ n → ∀ k r,
    parseStringBody l = some (k, r) → r <:+ l := by
  intro n
  induction n with
  | zero =>
    intro l hl k r h
    have : l = [] := List.length_eq_zero.mp (Nat.le_zero.mp hl)
    subst this
    simp [parseStringBody] at h
  | succ n ih =>
    intro l hl k r h
    rw [parseStringBody.eq_def] at h
    repeat' split at h
    any_goals simp at h
    all_goals first
      | (obtain ⟨hk, hr⟩ := h
         rw [← hr]
         exact List.suffix_cons _ _)
      | (obtain ⟨a, hp, _⟩ := h
         refine (ih _ ?_ _ _ hp).trans ?_
         · simp at hl
           omega
         · first
           | exact suffix_cons6 _ _ _ _ _ _ _
           | exact suffix_cons2 _ _ _
           | exact List.suffix_cons _ _)

end TicketGen
namespace TicketGen

theorem numFrac_suffix {l f r : List Char} (h : numFrac l = some (f, r)) :
    r <:+ l := by
  rw [numFrac.eq_def] at h
  simp only [] at h
  split at h
  · split at h
    · simp at h
    · simp at h
      rw [← h.2]
      exact (List.dropWhile_suffix _).trans (List.suffix_cons _ _)
  · simp at h
    rw [← h.2]

theorem numExp_suffix {l f r : List Char} (h : numExp l = some (f, r)) :
    r <:+ l := by
  rw [numExp.eq_def] at h
  simp only [] at h
  split at h
  · simp at h
    rw [← h.2]
  · split at h
    · split at h
      · simp at h
      · split at h
        · split at h
          · simp at h
          · simp at h
            rw [← h.2]
            exact ((List.dropWhile_suffix _).trans (List.suffix_cons _ _)).trans
              (List.suffix_cons _ _)
        · split at h
          · simp at h
          · simp at h
            rw [← h.2]
            exact (List.dropWhile_suffix _).trans (List.suffix_cons _ _)
    · simp at h
      rw [← h.2]

theorem numFracExp_suffix {l f r : List Char} (h : numFracExp l = some (f, r)) :
    r <:+ l := by
  unfold numFracExp at h
  split at h
  · simp at h
  · rw [Option.map_eq_some'] at h
    obtain ⟨⟨e, re⟩, hp, he⟩ := h
    have h2 := congrArg Prod.snd he
    simp at h2
    subst h2
    rename_i fr rf heq
    exact (numExp_suffix hp).trans (numFrac_suffix heq)

theorem numIntPart_suffix {l f r : List Char} (h : numIntPart l = some (f, r)) :
    r <:+ l := by
  rw [numIntPart.eq_def] at h
  split at h
  · simp at h
  · rw [Option.map_eq_some'] at h
    obtain ⟨⟨e, re⟩, hp, he⟩ := h
    have h2 := congrArg Prod.snd he
    simp at h2
    subst h2
    exact (numFracExp_suffix hp).trans (List.suffix_cons _ _)
  · split at h
    · rw [Option.map_eq_some'] at h
      obtain ⟨⟨e, re⟩, hp, he⟩ := h
      have h2 := congrArg Prod.snd he
      simp at h2
      subst h2
      exact (numFracExp_suffix hp).trans (List.dropWhile_suffix _)
    · simp at h

theorem parseNumber_suffix {l : List Char} {v : Json} {r : List Char}
    (h : parseNumber l = some (v, r)) : r <:+ l := by
  rw [parseNumber.eq_def] at h
  split at h
  · rw [Option.map_eq_some'] at h
    obtain ⟨⟨e, re⟩, hp, he⟩ := h
    have h2 := congrArg Prod.snd he
    simp at h2
    subst h2
    exact (numIntPart_suffix hp).trans (List.suffix_cons _ _)
  · rw [Option.map_eq_some'] at h
    obtain ⟨⟨e, re⟩, hp, he⟩ := h
    have h2 := congrArg Prod.snd he
    simp at h2
    subst h2
    exact numIntPart_suffix hp

theorem parseNumber_shape {l : List Char} {v : Json} {r : List Char}
    (h : parseNumber l = some (v, r)) : ∃ x, v = Json.num x := by
  rw [parseNumber.eq_def] at h
  split at h
  · rw [Option.map_eq_some'] at h
    obtain ⟨⟨e, re⟩, _, he⟩ := h
    have := congrArg Prod.fst he
    simp at this
    first
    | exact ⟨_, this⟩
    | exact ⟨_, this.symm⟩
  · rw [Option.map_eq_some'] at h
    obtain ⟨⟨e, re⟩, _, he⟩ := h
    have := congrArg Prod.fst he
    simp at this
    first
    | exact ⟨_, this⟩
    | exact ⟨_, this.symm⟩

end TicketGen
namespace TicketGen

theorem suffix_of_dropWhile_eq {p : Char → Bool} {l x : List Char}
    (h : l.dropWhile p = x) : x <:+ l :=
  h ▸ List.dropWhile_suffix p

theorem parseStringBody_sfx {a k r : List Char}
    (h : parseStringBody a = some (k, r)) : r <:+ a :=
  parseStringBody_suffix a.length a (Nat.le_refl _) k r h

theorem parseCore_suffix :
    ∀ (fuel : Nat) (m : PMode) (l : List Char) (v : Json) (r : List Char),
    parseCore fuel m l = some (v, r) → r <:+ l := by
  intro fuel
  induction fuel with
  | zero => intro m l v r h; simp [parseCore] at h
  | succ n ih =>
    intro m l v r h
    cases m with
    | value =>
      simp only [parseCore] at h
      cases hdw : List.dropWhile isJsonWs l with
      | nil => rw [hdw] at h; simp at h
      | cons c cs =>
        rw [hdw] at h
        simp only [] at h
        have base : c :: cs <:+ l := suffix_of_dropWhile_eq hdw
        have base' : cs <:+ l := (List.suffix_cons c cs).trans base
        by_cases h1 : c = '{'
        · rw [if_pos h1] at h
          exact (ih _ _ _ _ h).trans base'
        · rw [if_neg h1] at h
          by_cases h2 : c = '['
          · rw [if_pos h2] at h
            exact (ih _ _ _ _ h).trans base'
          · rw [if_neg h2] at h
            by_cases h3 : c = '"'
            · rw [if_pos h3] at h
              rw [Option.map_eq_some'] at h
              obtain ⟨⟨ks, rs⟩, hp, he⟩ := h
              have hr := congrArg Prod.snd he
              simp at hr
              subst hr
              exact (parseStringBody_sfx hp).trans base'
            · rw [if_neg h3] at h
              by_cases h4 : ['t', 'r', 'u', 'e'].isPrefixOf (c :: cs)
              · rw [if_pos h4] at h
                simp at h
                obtain ⟨-, hr⟩ := h
                subst hr
                exact (List.drop_suffix _ _).trans base'
              · rw [if_neg h4] at h
                by_cases h5 : ['f', 'a', 'l', 's', 'e'].isPrefixOf (c :: cs)
                · rw [if_pos h5] at h
                  simp at h
                  obtain ⟨-, hr⟩ := h
                  subst hr
                  exact (List.drop_suffix _ _).trans base'
                · rw [if_neg h5] at h
                  by_cases h6 : ['n', 'u', 'l', 'l'].isPrefixOf (c :: cs)
                  · rw [if_pos h6] at h
                    simp at h
                    obtain ⟨-, hr⟩ := h
                    subst hr
                    exact (List.drop_suffix _ _).trans base'
                  · rw [if_neg h6] at h
                    by_cases h7 : ['N', 'a', 'N'].isPrefixOf (c :: cs)
                    · rw [if_pos h7] at h
                      simp at h
                      obtain ⟨-, hr⟩ := h
                      subst hr
                      exact (List.drop_suffix _ _).trans base'
                    · rw [if_neg h7] at h
                      by_cases h8 : ['I', 'n', 'f', 'i', 'n', 'i', 't', 'y'].isPrefixOf (c :: cs)
                      · rw [if_pos h8] at h
                        simp at h
                        obtain ⟨-, hr⟩ := h
                        subst hr
                        exact (List.drop_suffix _ _).trans base'
                      · rw [if_neg h8] at h
                        by_cases h9 : ['-', 'I', 'n', 'f', 'i', 'n', 'i', 't', 'y'].isPrefixOf (c :: cs)
                        · rw [if_pos h9] at h
                          simp at h
                          obtain ⟨-, hr⟩ := h
                          subst hr
                          exact (List.drop_suffix _ _).trans base'
                        · rw [if_neg h9] at h
                          exact (parseNumber_suffix h).trans base
    | objBody =>
      simp only [parseCore] at h
      cases hdw : List.dropWhile isJsonWs l with
      | nil => rw [hdw] at h; simp at h
      | cons c cs =>
        rw [hdw] at h
        simp only [] at h
        have base : c :: cs <:+ l := suffix_of_dropWhile_eq hdw
        by_cases h1 : c = '}'
        · rw [if_pos h1] at h
          simp at h
          obtain ⟨-, hr⟩ := h
          subst hr
          exact (List.suffix_cons c cs).trans base
        · rw [if_neg h1] at h
          exact (ih _ _ _ _ h).trans base
    | members acc =>
      simp only [parseCore] at h
      cases hdw : List.dropWhile isJsonWs l with
      | nil => rw [hdw] at h; simp at h
      | cons c cs =>
        rw [hdw] at h
        simp only [] at h
        have base : c :: cs <:+ l := suffix_of_dropWhile_eq hdw
        have base' : cs <:+ l := (List.suffix_cons c cs).trans base
        by_cases h1 : c = '"'
        · rw [if_pos h1] at h
          cases hsb : parseStringBody cs with
          | none => rw [hsb] at h; simp at h
          | some p =>
            obtain ⟨kk, r1⟩ := p
            rw [hsb] at h
            simp only [] at h
            have s1 : r1 <:+ l := (parseStringBody_sfx hsb).trans base'
            cases hdw1 : List.dropWhile isJsonWs r1 with
            | nil => rw [hdw1] at h; simp at h
            | cons c2 r2 =>
              rw [hdw1] at h
              simp only [] at h
              have s2 : r2 <:+ l :=
                ((List.suffix_cons c2 r2).trans (suffix_of_dropWhile_eq hdw1)).trans s1
              by_cases h2 : c2 = ':'
              · rw [if_pos h2] at h
                cases hpc : parseCore n PMode.value r2 with
                | none => rw [hpc] at h; simp at h
                | some q =>
                  obtain ⟨v1, r3⟩ := q
                  rw [hpc] at h
                  simp only [] at h
                  have s3 : r3 <:+ l := (ih _ _ _ _ hpc).trans s2
                  cases hdw2 : List.dropWhile isJsonWs r3 with
                  | nil => rw [hdw2] at h; simp at h
                  | cons c3 r4 =>
                    rw [hdw2] at h
                    simp only [] at h
                    have s4 : r4 <:+ l :=
                      ((List.suffix_cons c3 r4).trans (suffix_of_dropWhile_eq hdw2)).trans s3
                    by_cases h3 : c3 = ','
                    · rw [if_pos h3] at h
                      exact (ih _ _ _ _ h).trans s4
                    · rw [if_neg h3] at h
                      by_cases h4 : c3 = '}'
                      · rw [if_pos h4] at h
                        simp at h
                        obtain ⟨-, hr⟩ := h
                        subst hr
                        exact s4
                      · rw [if_neg h4] at h
                        simp at h
              · rw [if_neg h2] at h
                simp at h
        · rw [if_neg h1] at h
          simp at h
    | arrBody =>
      simp only [parseCore] at h
      cases hdw : List.dropWhile isJsonWs l with
      | nil => rw [hdw] at h; simp at h
      | cons c cs =>
        rw [hdw] at h
        simp only [] at h
        have base : c :: cs <:+ l := suffix_of_dropWhile_eq hdw
        by_cases h1 : c = ']'
        · rw [if_pos h1] at h
          simp at h
          obtain ⟨-, hr⟩ := h
          subst hr
          exact (List.suffix_cons c cs).trans base
        · rw [if_neg h1] at h
          exact (ih _ _ _ _ h).trans base
    | elems acc =>
      simp only [parseCore] at h
      cases hpc : parseCore n PMode.value l with
      | none => rw [hpc] at h; simp at h
      | some q =>
        obtain ⟨v1, r1⟩ := q
        rw [hpc] at h
        simp only [] at h
        have s1 : r1 <:+ l := ih _ _ _ _ hpc
        cases hdw : List.dropWhile isJsonWs r1 with
        | nil => rw [hdw] at h; simp at h
        | cons c2 r2 =>
          rw [hdw] at h
          simp only [] at h
          have s2 : r2 <:+ l :=
            ((List.suffix_cons c2 r2).trans (suffix_of_dropWhile_eq hdw)).trans s1
          by_cases h1 : c2 = ','
          · rw [if_pos h1] at h
            exact (ih _ _ _ _ h).trans s2
          · rw [if_neg h1] at h
            by_cases h2 : c2 = ']'
            · rw [if_pos h2] at h
              simp at h
              obtain ⟨-, hr⟩ := h
              subst hr
              exact s2
            · rw [if_neg h2] at h
              simp at h

end TicketGen
namespace TicketGen

theorem parseCore_elems_arr :
    ∀ (n : Nat) (acc : List Json) (l : List Char) (v : Json) (r : List Char),
    parseCore n (PMode.elems acc) l = some (v, r) → ∃ es, v = Json.arr es := by
  intro n
  induction n with
  | zero => intro acc l v r h; simp [parseCore] at h
  | succ n ih =>
    intro acc l v r h
    simp only [parseCore] at h
    cases hpc : parseCore n PMode.value l with
    | none => rw [hpc] at h; simp at h
    | some q =>
      obtain ⟨v1, r1⟩ := q
      rw [hpc] at h
      simp only [] at h
      cases hdw : List.dropWhile isJsonWs r1 with
      | nil => rw [hdw] at h; simp at h
      | cons c2 r2 =>
        rw [hdw] at h
        simp only [] at h
        by_cases h1 : c2 = ','
        · rw [if_pos h1] at h
          exact ih _ _ _ _ h
        · rw [if_neg h1] at h
          by_cases h2 : c2 = ']'
          · rw [if_pos h2] at h
            simp at h
            exact ⟨_, h.1.symm⟩
          · rw [if_neg h2] at h
            simp at h

theorem parseCore_arrBody_arr {n : Nat} {l : List Char} {v : Json}
    {r : List Char} (h : parseCore n PMode.arrBody l = some (v, r)) :
    ∃ es, v = Json.arr es := by
  match n with
  | 0 => simp [parseCore] at h
  | n + 1 =>
    simp only [parseCore] at h
    cases hdw : List.dropWhile isJsonWs l with
    | nil => rw [hdw] at h; simp at h
    | cons c cs =>
      rw [hdw] at h
      simp only [] at h
      by_cases h1 : c = ']'
      · rw [if_pos h1] at h
        simp at h
        exact ⟨_, h.1.symm⟩
      · rw [if_neg h1] at h
        exact parseCore_elems_arr n _ _ _ _ h

theorem parseCore_members_shape :
    ∀ (n : Nat) (acc : List (String × Json)) (l : List Char) (v : Json)
    (r : List Char), parseCore n (PMode.members acc) l = some (v, r) →
    ('}' :: r) <:+ l := by
  intro n
  induction n with
  | zero => intro acc l v r h; simp [parseCore] at h
  | succ n ih =>
    intro acc l v r h
    simp only [parseCore] at h
    cases hdw : List.dropWhile isJsonWs l with
    | nil => rw [hdw] at h; simp at h
    | cons c cs =>
      rw [hdw] at h
      simp only [] at h
      have base : c :: cs <:+ l := suffix_of_dropWhile_eq hdw
      have base' : cs <:+ l := (List.suffix_cons c cs).trans base
      by_cases h1 : c = '"'
      · rw [if_pos h1] at h
        cases hsb : parseStringBody cs with
        | none => rw [hsb] at h; simp at h
        | some p =>
          obtain ⟨kk, r1⟩ := p
          rw [hsb] at h
          simp only [] at h
          have s1 : r1 <:+ l := (parseStringBody_sfx hsb).trans base'
          cases hdw1 : List.dropWhile isJsonWs r1 with
          | nil => rw [hdw1] at h; simp at h
          | cons c2 r2 =>
            rw [hdw1] at h
            simp only [] at h
            have s2 : r2 <:+ l :=
              ((List.suffix_cons c2 r2).trans (suffix_of_dropWhile_eq hdw1)).trans s1
            by_cases h2 : c2 = ':'
            · rw [if_pos h2] at h
              cases hpc : parseCore n PMode.value r2 with
              | none => rw [hpc] at h; simp at h
              | some q =>
                obtain ⟨v1, r3⟩ := q
                rw [hpc] at h
                simp only [] at h
                have s3 : r3 <:+ l := (parseCore_suffix n _ _ _ _ hpc).trans s2
                cases hdw2 : List.dropWhile isJsonWs r3 with
                | nil => rw [hdw2] at h; simp at h
                | cons c3 r4 =>
                  rw [hdw2] at h
                  simp only [] at h
                  by_cases h3 : c3 = ','
                  · rw [if_pos h3] at h
                    have s4 : r4 <:+ l :=
                      ((List.suffix_cons c3 r4).trans
                        (suffix_of_dropWhile_eq hdw2)).trans s3
                    exact (ih _ _ _ _ h).trans s4
                  · rw [if_neg h3] at h
                    by_cases h4 : c3 = '}'
                    · rw [if_pos h4] at h
                      simp at h
                      obtain ⟨-, hr⟩ := h
                      subst hr
                      subst h4
                      exact (suffix_of_dropWhile_eq hdw2).trans s3
                    · rw [if_neg h4] at h
                      simp at h
            · rw [if_neg h2] at h
              simp at h
      · rw [if_neg h1] at h
        simp at h

theorem parseCore_objBody_shape {n : Nat} {l : List Char} {v : Json}
    {r : List Char} (h : parseCore n PMode.objBody l = some (v, r)) :
    ('}' :: r) <:+ l := by
  match n with
  | 0 => simp [parseCore] at h
  | n + 1 =>
    simp only [parseCore] at h
    cases hdw : List.dropWhile isJsonWs l with
    | nil => rw [hdw] at h; simp at h
    | cons c cs =>
      rw [hdw] at h
      simp only [] at h
      have base : c :: cs <:+ l := suffix_of_dropWhile_eq hdw
      by_cases h1 : c = '}'
      · rw [if_pos h1] at h
        simp at h
        obtain ⟨-, hr⟩ := h
        subst hr
        subst h1
        exact base
      · rw [if_neg h1] at h
        exact (parseCore_members_shape n _ _ _ _ h).trans base

theorem parseCore_value_obj {n : Nat} {l : List Char} {ms : List (String × Json)}
    {r : List Char} (h : parseCore n PMode.value l = some (Json.obj ms, r)) :
    ∃ n' l', n = n' + 1 ∧ l.dropWhile isJsonWs = '{' :: l' ∧
      parseCore n' PMode.objBody l' = some (Json.obj ms, r) := by
  match n with
  | 0 => simp [parseCore] at h
  | n + 1 =>
    simp only [parseCore] at h
    cases hdw : List.dropWhile isJsonWs l with
    | nil => rw [hdw] at h; simp at h
    | cons c cs =>
      rw [hdw] at h
      simp only [] at h
      by_cases h1 : c = '{'
      · rw [if_pos h1] at h
        subst h1
        exact ⟨n, cs, rfl, rfl, h⟩
      · rw [if_neg h1] at h
        exfalso
        by_cases h2 : c = '['
        · rw [if_pos h2] at h
          obtain ⟨es, hes⟩ := parseCore_arrBody_arr h
          exact Json.noConfusion hes
        · rw [if_neg h2] at h
          by_cases h3 : c = '"'
          · rw [if_pos h3] at h
            rw [Option.map_eq_some'] at h
            obtain ⟨⟨ks, rs⟩, _, he⟩ := h
            have := congrArg Prod.fst he
            simp at this
          · rw [if_neg h3] at h
            by_cases h4 : ['t', 'r', 'u', 'e'].isPrefixOf (c :: cs)
            · rw [if_pos h4] at h; simp at h
            · rw [if_neg h4] at h
              by_cases h5 : ['f', 'a', 'l', 's', 'e'].isPrefixOf (c :: cs)
              · rw [if_pos h5] at h; simp at h
              · rw [if_neg h5] at h
                by_cases h6 : ['n', 'u', 'l', 'l'].isPrefixOf (c :: cs)
                · rw [if_pos h6] at h; simp at h
                · rw [if_neg h6] at h
                  by_cases h7 : ['N', 'a', 'N'].isPrefixOf (c :: cs)
                  · rw [if_pos h7] at h; simp at h
                  · rw [if_neg h7] at h
                    by_cases h8 : ['I', 'n', 'f', 'i', 'n', 'i', 't', 'y'].isPrefixOf (c :: cs)
                    · rw [if_pos h8] at h; simp at h
                    · rw [if_neg h8] at h
                      by_cases h9 : ['-', 'I', 'n', 'f', 'i', 'n', 'i', 't', 'y'].isPrefixOf (c :: cs)
                      · rw [if_pos h9] at h; simp at h
                      · rw [if_neg h9] at h
                        obtain ⟨x, hx⟩ := parseNumber_shape h
                        exact Json.noConfusion hx

end TicketGen
namespace TicketGen

theorem loads_pyStrip_obj {s : List Char} {ms : List (String × Json)}
    (h : loads (pyStrip s) = some (Json.obj ms)) :
    ∃ mid, pyStrip s = '{' :: (mid ++ ['}']) := by
  unfold loads at h
  cases hpc : parseCore (3 * (pyStrip s).length + 8) PMode.value (pyStrip s) with
  | none => rw [hpc] at h; simp at h
  | some q =>
    obtain ⟨v, rest⟩ := q
    rw [hpc] at h
    simp only [] at h
    by_cases hrw : rest.dropWhile isJsonWs = []
    · rw [if_pos hrw] at h
      simp at h
      subst h
      obtain ⟨n2, l2, -, hdw, hob⟩ := parseCore_value_obj hpc
      have hne : pyStrip s ≠ [] := by
        intro hnil
        rw [hnil] at hdw
        simp at hdw
      have hfix : (pyStrip s).dropWhile isJsonWs = pyStrip s := by
        cases hps : pyStrip s with
        | nil => exact absurd hps hne
        | cons c cs =>
          have hhc : (pyStrip s).head? = some c := by rw [hps]; rfl
          have hj := not_jsonWs_of_not_ws (pyStrip_head_not_ws hhc)
          simp [List.dropWhile_cons, hj]
      rw [hfix] at hdw
      have hsfx : ('}' :: rest) <:+ l2 := parseCore_objBody_shape hob
      have hrest : rest = [] := by
        cases hre : rest with
        | nil => rfl
        | cons d ds =>
          exfalso
          rw [hre] at hrw hsfx
          obtain ⟨pre, hpre⟩ := hsfx
          have hshape : pyStrip s = ('{' :: pre ++ ['}']) ++ (d :: ds) := by
            rw [hdw, ← hpre]
            simp
          have hlq : (pyStrip s).getLast? = (d :: ds).getLast? := by
            rw [hshape]
            exact List.getLast?_append_of_ne_nil _ (by simp)
          have hlsome : (d :: ds).getLast? = some ((d :: ds).getLast (by simp)) :=
            List.getLast?_eq_getLast _ (by simp)
          have hwsf : isWs ((d :: ds).getLast (by simp)) = false :=
            pyStrip_getLast_not_ws (by rw [hlq]; exact hlsome)
          rw [List.dropWhile_eq_nil_iff] at hrw
          have hjw := hrw _ (List.getLast_mem (by simp))
          rw [not_jsonWs_of_not_ws hwsf] at hjw
          exact Bool.noConfusion hjw
      rw [hrest] at hsfx
      obtain ⟨pre, hpre⟩ := hsfx
      exact ⟨pre, by rw [hdw, ← hpre]⟩
    · rw [if_neg hrw] at h
      simp at h

/-- Claim C5 (amended): for every input without a triple-backtick sequence
whose stripped text is a well-formed JSON object — any layout, key order,
escape sequences and lone backticks included — holding exactly the fields
`user` and `issue` with non-empty string values, extraction returns that
parsed object (both values verbatim) and the derived tier is `full`; the
code itself attaches no status field, and inputs containing a triple
backtick are excluded because the unconditional fence replace alters them
before parsing (see the counterexample). -/
theorem c5_round_trip_wellformed (now s : String)
    (members : List (String × Json)) (u iv : String)
    (hbt : ¬ (fencePat <:+: s.data))
    (hload : loads (pyStrip s.data) = some (Json.obj members))
    (_huser : lookupKey "user" (Json.obj members) = some (Json.str u))
    (_hissue : lookupKey "issue" (Json.obj members) = some (Json.str iv))
    (_hexact : members.length = 2)
    (_hune : u ≠ "") (_hivne : iv ≠ "") :
    parse_json_from_text now s = some (Json.obj members)
    ∧ extractionTier s = ExtractionStatus.full := by
  have hclean : cleanText s.data = pyStrip s.data := cleanText_no_fence hbt
  obtain ⟨mid, hmid⟩ := loads_pyStrip_obj hload
  have hspan : findSpan (cleanText s.data) = some (pyStrip s.data) := by
    rw [hclean, hmid]
    exact findSpan_shape mid
  constructor
  · rw [parse_eval_span now s _ hspan, hload]
  · exact tier_eval_full s _ hspan (by rw [hload]; rfl)

/-- Claim C5 witness: a well-formed object with reversed key order, lone
backticks in one value, escaped quotes in the other, and internal and
surrounding whitespace round-trips verbatim with tier `full`. -/
theorem c5_witness2 :
    parse_json_from_text "2024-05-01 10:09"
        " \x7b\n  \"issue\": \"Cable `A` is loose\",\n  \"user\": \"Bob \\\"B\\\" Smith\"\n\x7d\n" =
      some (Json.obj [("issue", Json.str "Cable `A` is loose"),
        ("user", Json.str "Bob \"B\" Smith")])
  ∧ extractionTier
      " \x7b\n  \"issue\": \"Cable `A` is loose\",\n  \"user\": \"Bob \\\"B\\\" Smith\"\n\x7d\n" =
      ExtractionStatus.full :=
  c5_round_trip_wellformed "2024-05-01 10:09"
    " \x7b\n  \"issue\": \"Cable `A` is loose\",\n  \"user\": \"Bob \\\"B\\\" Smith\"\n\x7d\n"
    [("issue", Json.str "Cable `A` is loose"), ("user", Json.str "Bob \"B\" Smith")]
    "Bob \"B\" Smith" "Cable `A` is loose"
    (by decide) rfl rfl rfl rfl (by decide) (by decide)

end TicketGen
